import Mathlib

/-!
Shallow embedding of the `recpipe.py` data pipeline: records, the
grade-to-quality-points table, cohort/term train-test filters, the
data splitter with cold-start backfill, the libFM feature-vector
encoder's index offsetting, and the result aggregator.

Conventions: a pandas DataFrame is a `List Record` (rows in order);
a missing value (NaN) in an integer or string column is `none`;
float values that only ever get compared or copied are `Rat`.
A Python expression that can raise `KeyError` returns `PyResult`.
-/

/-- One row of the preprocessed course table: dense ids, term number,
cohort, letter grade and quality points.  `termnum`, `cohort`, `GRADE`
and `grdpts` can be missing (NaN in the source). -/
structure Record where
  sid : Int
  cid : Int
  iid : Int
  termnum : Option Int
  cohort : Option Int
  GRADE : Option String
  grdpts : Option Rat
deriving DecidableEq, Repr

/-- Result of a Python dict lookup: either a value or a raised KeyError. -/
inductive PyResult (α : Type) where
  | ok : α → PyResult α
  | keyError : PyResult α
deriving DecidableEq, Repr

/-- The `grade2pts` dict of `recpipe.py` (string keys only; the extra
`np.nan` key of the dict is handled in `grade2ptsGet`).  A value `none`
is the dict's `np.nan`, i.e. "missing quality points". -/
def grade2pts : List (String × Option Rat) :=
  [("A+", some 4), ("A", some 4), ("A-", some (367/100)), ("B+", some (333/100)),
   ("B", some 3), ("B-", some (267/100)), ("C+", some (233/100)), ("C", some 2),
   ("C-", some (167/100)), ("D", some 1), ("F", some 0), ("IN", some 0),
   ("S", some 3), ("NC", some 1), ("W", some 1),
   ("NR", none), ("AU", none), ("REG", none), ("IX", none), ("IP", none),
   ("nan", none)]

/-- `grade2pts[g]` in Python.  A missing grade (`none`) is the float
`np.nan`, which hits the dict's `np.nan` key by object identity and
yields `np.nan`; a string key absent from the dict raises `KeyError`. -/
def grade2ptsGet : Option String → PyResult (Option Rat)
  | none => .ok none
  | some g =>
    match grade2pts.lookup g with
    | some v => .ok v
    | none => .keyError

/-- The test `series['GRADE'] != np.nan` of `fill_grdpts`.  Under IEEE
semantics `x != nan` is `True` for every `x`, including `nan` itself,
so this is the constant `true`. -/
def gradeNeNan (_ : Option String) : Bool := true

/-- `fill_grdpts` of `PreprocessedCourseData.run`: per-row resolution of
the quality-points column. -/
def fill_grdpts (r : Record) : PyResult (Option Rat) :=
  if gradeNeNan r.GRADE then grade2ptsGet r.GRADE
  else .ok r.grdpts

/-- `TrainTestFilter.term_max`: "some number greater than max term id". -/
def term_max : Int := 14

/-- The four inclusive bounds of a `TrainTestFilter`. -/
structure TrainTestFilter where
  cohort_start : Int
  cohort_end : Int
  term_start : Int
  term_end : Int
deriving DecidableEq, Repr

/-- Python `c in s` membership test for a single character. -/
def pyContainsChar (s : String) (c : Char) : Bool :=
  s.toList.contains c

/-- Python `s.split(sep)` for a one-character separator, acting on the
character list of the string; the split of the empty string is `[[]]`,
as in Python. -/
def splitOnChar (c : Char) : List Char → List (List Char)
  | [] => [[]]
  | x :: xs =>
    match splitOnChar c xs with
    | [] => [[]]
    | h :: t => if x = c then [] :: h :: t else (x :: h) :: t

/-- Python `s.split(sep)` wrapped back into strings. -/
def pySplit (s : String) (c : Char) : List String :=
  (splitOnChar c s.toList).map String.mk

/-- Accumulated value of a digit run; `none` as soon as a non-digit
appears. -/
def digitsVal : List Char → Nat → Option Nat
  | [], acc => some acc
  | c :: cs, acc =>
    if c.isDigit then digitsVal cs (acc * 10 + (c.toNat - 48)) else none

/-- Python `int(s)` for the plain integer literals that occur in filter
specs: an optional minus sign followed by one or more digits; anything
else raises, modelled as `none`. -/
def pyInt (s : String) : Option Int :=
  match s.toList with
  | [] => none
  | ['-'] => none
  | '-' :: c :: cs => (digitsVal (c :: cs) 0).map (fun n => -(n : Int))
  | l => (digitsVal l 0).map (fun n => (n : Int))

/-- `TrainTestFilter._split`: a sub-spec `"A-B"` gives `(A, B)`; a bare
value `"A"` gives `(A, term_max)`. -/
def filterSubSplit (config : String) : Option (Int × Int) :=
  if pyContainsChar config '-' then
    match (pySplit config '-').map pyInt with
    | [some a, some b] => some (a, b)
    | _ => none
  else
    match pyInt config with
    | some a => some (a, term_max)
    | none => none

/-- `TrainTestFilter.__init__`: with a colon the spec is
`cohort:term`, each side parsed by `_split`; without a colon the spec is
`A-B` for cohorts and the term range defaults to `(0, term_max)`.
Malformed specs (which raise in Python) give `none`. -/
def parseFilterSpec (filt : String) : Option TrainTestFilter :=
  if pyContainsChar filt ':' then
    match pySplit filt ':' with
    | [cohort, term] =>
      match filterSubSplit cohort, filterSubSplit term with
      | some (cs, ce), some (ts, te) =>
        some ⟨cs, ce, ts, te⟩
      | _, _ => none
    | _ => none
  else
    match (pySplit filt '-').map pyInt with
    | [some a, some b] => some ⟨a, b, 0, term_max⟩
    | _ => none

/-- Pandas `series >= bound` for a nullable integer column: a comparison
against NaN is False. -/
def optGE (v : Option Int) (bound : Int) : Bool :=
  match v with
  | none => false
  | some x => bound ≤ x

/-- Pandas `series <= bound` for a nullable integer column. -/
def optLE (v : Option Int) (bound : Int) : Bool :=
  match v with
  | none => false
  | some x => x ≤ bound

namespace TrainTestFilter

/-- `TrainTestFilter.mask`: cohort and term number both within bounds. -/
def mask (f : TrainTestFilter) (r : Record) : Bool :=
  optGE r.cohort f.cohort_start && optLE r.cohort f.cohort_end &&
    optGE r.termnum f.term_start && optLE r.termnum f.term_end

/-- `TrainTestFilter.train`: `data[mask]`. -/
def train (f : TrainTestFilter) (data : List Record) : List Record :=
  data.filter (fun r => f.mask r)

/-- `TrainTestFilter.test`: `data[~mask]`. -/
def test (f : TrainTestFilter) (data : List Record) : List Record :=
  data.filter (fun r => !(f.mask r))

end TrainTestFilter

/-- Stable insertion step for `sortBy`: the new element goes before the
first element it does not dominate, so equal keys keep their original
relative order (Python's `sorted` is stable). -/
def insertBy {α : Type} (le : α → α → Bool) (x : α) : List α → List α
  | [] => [x]
  | y :: ys => if le x y then x :: y :: ys else y :: insertBy le x ys

/-- Stable ascending sort by the boolean relation `le`, modelling
Python's `sorted` (and the DataFrame `sort`, whose order among ties is
unspecified in the source). -/
def sortBy {α : Type} (le : α → α → Bool) : List α → List α
  | [] => []
  | x :: xs => insertBy le x (sortBy le xs)

/-- Sort key of `data.sort(['termnum', 'sid'])`: lexicographic on
(termnum, sid) with missing term numbers last (pandas default). -/
def splitSortLE (a b : Record) : Bool :=
  match a.termnum, b.termnum with
  | none, none => a.sid ≤ b.sid
  | none, some _ => false
  | some _, none => true
  | some x, some y => x < y || (x == y && a.sid ≤ b.sid)

/-- Row equality on the `('sid', 'cid')` subset used by
`drop_duplicates(('sid','cid'), take_last=True)`. -/
def sameSidCid (a b : Record) : Bool :=
  a.sid == b.sid && a.cid == b.cid

/-- `data.drop_duplicates(('sid','cid'), take_last=True)`: keep a row
iff no later row has the same (sid, cid). -/
def dedupLast : List Record → List Record
  | [] => []
  | x :: xs => if xs.any (sameSidCid x) then dedupLast xs else x :: dedupLast xs

/-- Helper for `dedupFirst`: drop a row iff an equal row was already
seen. -/
def dedupFirstAux : List Record → List Record → List Record
  | [], _ => []
  | x :: xs, seen =>
    if x ∈ seen then dedupFirstAux xs seen else x :: dedupFirstAux xs (x :: seen)

/-- `frame.drop_duplicates()`: keep the first occurrence of each
(whole-row) value. -/
def dedupFirst (l : List Record) : List Record :=
  dedupFirstAux l []

/-- `DataSplitterBaseTask.read_data` after the file read: keep the most
recent (last) record per (sid, cid), then drop rows with missing
quality points. -/
def read_data (data : List Record) : List Record :=
  (dedupLast data).filter (fun r => r.grdpts.isSome)

/-- Number of rows of `l` whose key (under `k`) is `x`; the group size
used by `backfill` via `gb[key].transform('count')`. -/
def countKey (k : Record → Int) (x : Int) (l : List Record) : Nat :=
  l.countP (fun r => k r == x)

/-- Split a list into the first `n` rows of each key-group and the
rest, keeping original order on both sides; `cnt` carries how many rows
of each key were already consumed.  With `cnt = 0` this is exactly
(`gb.head(n)`, the complementary rows kept by `gb.tail(counts - n)`)
of `backfill`. -/
def headTail (k : Record → Int) (n : Nat) :
    List Record → (Int → Nat) → List Record × List Record
  | [], _ => ([], [])
  | r :: rs, cnt =>
    let c := cnt (k r)
    let p := headTail k n rs (fun j => if j = k r then c + 1 else cnt j)
    if c < n then (r :: p.1, p.2) else (p.1, r :: p.2)

/-- `DataSplitterBaseTask.backfill`: move the first `firstn` test rows
of every key-value present in test but absent from train over to the
train side. -/
def backfill (k : Record → Int) (firstn : Nat)
    (train : List Record) (test : List Record) : List Record × List Record :=
  if firstn = 0 then (train, test)
  else
    let trainKeys := train.map k
    let warm := fun r => decide (k r ∈ trainKeys)
    let diff_records := test.filter (fun r => !(warm r))
    let p := headTail k firstn diff_records (fun _ => 0)
    (train ++ p.1, test.filter warm ++ p.2)

/-- The luigi parameters of `DataSplitterBaseTask` that `split_data`
reads. -/
structure SplitConfig where
  filters : List TrainTestFilter
  discard_nongrade : Bool
  backfill_cold_students : Nat
  backfill_cold_courses : Nat
deriving Repr

/-- Grade codes stripped from the test side: `['W', 'S', 'NC']`. -/
def toremove : List String := ["W", "S", "NC"]

/-- `test.GRADE.isin(toremove)` per row; a missing grade is NaN, which
`isin` reports as False. -/
def gradeIsIn (r : Record) (l : List String) : Bool :=
  match r.GRADE with
  | some g => decide (g ∈ l)
  | none => false

/-- `DataSplitterBaseTask.split_data`: read and clean, sort, apply the
cohort/term filters with deduplication, strip W/S/NC from test (and
optionally from train), then backfill cold students and cold courses. -/
def split_data (cfg : SplitConfig) (data : List Record) : List Record × List Record :=
  let d := sortBy splitSortLE (read_data data)
  let train := dedupFirst (cfg.filters.flatMap (fun f => f.train d))
  let test := dedupFirst (cfg.filters.flatMap (fun f => f.test d))
  let test := test.filter (fun r => !(gradeIsIn r toremove))
  let train :=
    if cfg.discard_nongrade then train.filter (fun r => !(gradeIsIn r toremove))
    else train
  let p := backfill Record.sid cfg.backfill_cold_students train test
  backfill Record.cid cfg.backfill_cold_courses p.1 p.2

/-- Python `max` of a nonempty numeric sequence (on the empty list the
source would raise; we return 0, and every use below is nonempty). -/
def pyMax : List Int → Int
  | [] => 0
  | x :: xs => xs.foldl max x

/-- The result of `UserCourseGradeLibFM.run` just before writing: the
re-encoded train and test frames, plus the `time_feat_num` passed to
`write_libfm` (0 when unused, its Python default). -/
structure LibFMData where
  train : List Record
  test : List Record
  time_feat_num : Int
deriving Repr

/-- The index re-encoding of `UserCourseGradeLibFM.run`: `cid` is
shifted by `max_row_idx = max(concat(test.sid, train.sid))`; in mode
`"bin"` `termnum` is shifted by `max_col_idx` (NaN stays NaN); in mode
`"cat"` the categorical time feature index is `max_col_idx + 1`. -/
def libfm_run (time : String) (train : List Record) (test : List Record) : LibFMData :=
  let max_row_idx := pyMax ((test.map Record.sid) ++ (train.map Record.sid))
  let train := train.map (fun r => { r with cid := r.cid + max_row_idx })
  let test := test.map (fun r => { r with cid := r.cid + max_row_idx })
  if time = "bin" then
    let max_col_idx := pyMax ((test.map Record.cid) ++ (train.map Record.cid))
    { train := train.map (fun r => { r with termnum := r.termnum.map (· + max_col_idx) }),
      test := test.map (fun r => { r with termnum := r.termnum.map (· + max_col_idx) }),
      time_feat_num := 0 }
  else if time = "cat" then
    let max_col_idx := pyMax ((test.map Record.cid) ++ (train.map Record.cid))
    { train := train, test := test, time_feat_num := max_col_idx + 1 }
  else
    { train := train, test := test, time_feat_num := 0 }

/-- One row `(dim, train_error, test_error)` of a per-method result
file, as parsed by `CompareMethods.read_results`. -/
structure MethodRow where
  dim : Int
  train_error : Rat
  test_error : Rat
deriving DecidableEq, Repr

/-- A result row after `row.insert(0, method_name)`. -/
structure TaggedRow where
  method : String
  dim : Int
  train_error : Rat
  test_error : Rat
deriving DecidableEq, Repr

/-- `row.insert(0, method_name)`. -/
def tagRow (name : String) (r : MethodRow) : TaggedRow :=
  ⟨name, r.dim, r.train_error, r.test_error⟩

/-- The sort key `lambda tup: tup[-1]` of `CompareMethods.run`: the
last element of a tagged row is its test error. -/
def rowLE (a b : TaggedRow) : Bool :=
  a.test_error ≤ b.test_error

/-- `CompareMethods.run`: per method, tag the rows, sort ascending by
test error, keep the first `topn`; then sort the merged rows ascending
by test error. -/
def compareRun (inputs : List (String × List MethodRow)) (topn : Nat) : List TaggedRow :=
  let results := inputs.flatMap
    (fun pr => (sortBy rowLE ((pr.2).map (tagRow pr.1))).take topn)
  sortBy rowLE results

/-! Helper lemmas about the list operations of the embedding. -/

theorem insertBy_mem {α : Type} (le : α → α → Bool) (x : α) (l : List α) (z : α) :
    z ∈ insertBy le x l ↔ z = x ∨ z ∈ l := by
  induction l with
  | nil => simp [insertBy]
  | cons y ys ih =>
    by_cases h : le x y
    · simp [insertBy, h]
    · simp only [insertBy, if_neg h, List.mem_cons, ih]
      tauto

theorem sortBy_mem {α : Type} (le : α → α → Bool) (l : List α) (z : α) :
    z ∈ sortBy le l ↔ z ∈ l := by
  induction l with
  | nil => simp [sortBy]
  | cons x xs ih => simp [sortBy, insertBy_mem, ih]

theorem insertBy_pairwise {α : Type} (le : α → α → Bool)
    (htot : ∀ a b, le a b = true ∨ le b a = true)
    (htrans : ∀ a b c, le a b = true → le b c = true → le a c = true)
    (x : α) (l : List α) (h : l.Pairwise (fun a b => le a b = true)) :
    (insertBy le x l).Pairwise (fun a b => le a b = true) := by
  induction l with
  | nil => simp [insertBy]
  | cons y ys ih =>
    rcases List.pairwise_cons.mp h with ⟨hy, hys⟩
    by_cases hxy : le x y
    · rw [insertBy, if_pos hxy]
      refine List.pairwise_cons.mpr ⟨?_, h⟩
      intro z hz
      rcases List.mem_cons.mp hz with rfl | hz
      · exact hxy
      · exact htrans x y z hxy (hy z hz)
    · rw [insertBy, if_neg hxy]
      refine List.pairwise_cons.mpr ⟨?_, ih hys⟩
      intro z hz
      rcases (insertBy_mem le x ys z).mp hz with rfl | hz
      · rcases htot z y with h1 | h1
        · exact absurd h1 hxy
        · exact h1
      · exact hy z hz

theorem sortBy_pairwise {α : Type} (le : α → α → Bool)
    (htot : ∀ a b, le a b = true ∨ le b a = true)
    (htrans : ∀ a b c, le a b = true → le b c = true → le a c = true)
    (l : List α) :
    (sortBy le l).Pairwise (fun a b => le a b = true) := by
  induction l with
  | nil => simp [sortBy]
  | cons x xs ih => exact insertBy_pairwise le htot htrans x _ ih

theorem length_filter_not_add {α : Type} (p : α → Bool) (l : List α) :
    (l.filter p).length + (l.filter (fun r => !(p r))).length = l.length := by
  induction l with
  | nil => rfl
  | cons x xs ih =>
    by_cases hx : p x <;> simp [List.filter_cons, hx] <;> omega

theorem dedupFirstAux_subset (l seen : List Record) (r : Record)
    (h : r ∈ dedupFirstAux l seen) : r ∈ l := by
  induction l generalizing seen with
  | nil => simp [dedupFirstAux] at h
  | cons x xs ih =>
    simp only [dedupFirstAux] at h
    by_cases hx : x ∈ seen
    · rw [if_pos hx] at h
      exact List.mem_cons_of_mem _ (ih seen h)
    · rw [if_neg hx] at h
      rcases List.mem_cons.mp h with rfl | h
      · exact List.mem_cons_self _ _
      · exact List.mem_cons_of_mem _ (ih (x :: seen) h)

theorem dedupFirst_subset (l : List Record) (r : Record)
    (h : r ∈ dedupFirst l) : r ∈ l :=
  dedupFirstAux_subset l [] r h

theorem headTail_length (k : Record → Int) (n : Nat) (l : List Record)
    (cnt : Int → Nat) :
    (headTail k n l cnt).1.length + (headTail k n l cnt).2.length = l.length := by
  induction l generalizing cnt with
  | nil => simp [headTail]
  | cons x xs ih =>
    simp only [headTail]
    have h := ih (fun j => if j = k x then cnt (k x) + 1 else cnt j)
    by_cases hc : cnt (k x) < n
    · rw [if_pos hc]
      simp only [List.length_cons]
      omega
    · rw [if_neg hc]
      simp only [List.length_cons]
      omega

theorem headTail_fst_subset (k : Record → Int) (n : Nat) (l : List Record)
    (cnt : Int → Nat) (r : Record) (h : r ∈ (headTail k n l cnt).1) : r ∈ l := by
  induction l generalizing cnt with
  | nil => simp [headTail] at h
  | cons x xs ih =>
    simp only [headTail] at h
    by_cases hc : cnt (k x) < n
    · rw [if_pos hc] at h
      rcases List.mem_cons.mp h with rfl | h
      · exact List.mem_cons_self _ _
      · exact List.mem_cons_of_mem _ (ih _ h)
    · rw [if_neg hc] at h
      exact List.mem_cons_of_mem _ (ih _ h)

theorem headTail_snd_subset (k : Record → Int) (n : Nat) (l : List Record)
    (cnt : Int → Nat) (r : Record) (h : r ∈ (headTail k n l cnt).2) : r ∈ l := by
  induction l generalizing cnt with
  | nil => simp [headTail] at h
  | cons x xs ih =>
    simp only [headTail] at h
    by_cases hc : cnt (k x) < n
    · rw [if_pos hc] at h
      exact List.mem_cons_of_mem _ (ih _ h)
    · rw [if_neg hc] at h
      rcases List.mem_cons.mp h with rfl | h
      · exact List.mem_cons_self _ _
      · exact List.mem_cons_of_mem _ (ih _ h)

theorem headTail_snd_cover (k : Record → Int) (n : Nat) (l : List Record)
    (cnt : Int → Nat) (r : Record) (h : r ∈ (headTail k n l cnt).2) :
    n ≤ cnt (k r) ∨ ∃ r', r' ∈ (headTail k n l cnt).1 ∧ k r' = k r := by
  induction l generalizing cnt with
  | nil => simp [headTail] at h
  | cons x xs ih =>
    simp only [headTail] at h ⊢
    by_cases hc : cnt (k x) < n
    · rw [if_pos hc] at h ⊢
      by_cases hk : k r = k x
      · exact Or.inr ⟨x, List.mem_cons_self _ _, hk.symm⟩
      · rcases ih (fun j => if j = k x then cnt (k x) + 1 else cnt j) h with h1 | ⟨r', h1, h2⟩
        · rw [if_neg hk] at h1
          exact Or.inl h1
        · exact Or.inr ⟨r', List.mem_cons_of_mem _ h1, h2⟩
    · rw [if_neg hc] at h ⊢
      rcases List.mem_cons.mp h with rfl | h
      · exact Or.inl (Nat.le_of_not_lt hc)
      · by_cases hk : k r = k x
        · rw [hk]
          exact Or.inl (Nat.le_of_not_lt hc)
        · rcases ih (fun j => if j = k x then cnt (k x) + 1 else cnt j) h with h1 | ⟨r', h1, h2⟩
          · rw [if_neg hk] at h1
            exact Or.inl h1
          · exact Or.inr ⟨r', h1, h2⟩

theorem headTail_first (k : Record → Int) (n : Nat) (l : List Record)
    (cnt : Int → Nat) (r : Record) (hr : r ∈ l) (hc : cnt (k r) < n) :
    ∃ r', r' ∈ (headTail k n l cnt).1 ∧ k r' = k r := by
  induction l generalizing cnt with
  | nil => simp at hr
  | cons x xs ih =>
    simp only [headTail]
    by_cases hx : cnt (k x) < n
    · rw [if_pos hx]
      by_cases hk : k r = k x
      · exact ⟨x, List.mem_cons_self _ _, hk.symm⟩
      · rcases List.mem_cons.mp hr with rfl | hr
        · exact absurd rfl hk
        · have hc' : (fun j => if j = k x then cnt (k x) + 1 else cnt j) (k r) < n := by
            simp only [if_neg hk]
            exact hc
          obtain ⟨r', h1, h2⟩ := ih (fun j => if j = k x then cnt (k x) + 1 else cnt j) hr hc'
          exact ⟨r', List.mem_cons_of_mem _ h1, h2⟩
    · rw [if_neg hx]
      rcases List.mem_cons.mp hr with rfl | hr
      · exact absurd hc hx
      · by_cases hk : k r = k x
        · rw [hk] at hc
          exact absurd hc hx
        · have hc' : (fun j => if j = k x then cnt (k x) + 1 else cnt j) (k r) < n := by
            simp only [if_neg hk]
            exact hc
          exact ih (fun j => if j = k x then cnt (k x) + 1 else cnt j) hr hc'

theorem headTail_snd_count (k : Record → Int) (n : Nat) (l : List Record)
    (cnt : Int → Nat) (r : Record) (h : r ∈ (headTail k n l cnt).2) :
    n < cnt (k r) + countKey k (k r) l := by
  induction l generalizing cnt with
  | nil => simp [headTail] at h
  | cons x xs ih =>
    simp only [headTail] at h
    have hcons : countKey k (k r) (x :: xs) =
        countKey k (k r) xs + (if k x = k r then 1 else 0) := by
      simp only [countKey, List.countP_cons, beq_iff_eq]
    by_cases hc : cnt (k x) < n
    · rw [if_pos hc] at h
      have h1 := ih (fun j => if j = k x then cnt (k x) + 1 else cnt j) h
      by_cases hk : k r = k x
      · simp only [if_pos hk] at h1
        rw [← hk] at h1
        rw [hcons, if_pos hk.symm]
        omega
      · simp only [if_neg hk] at h1
        rw [hcons, if_neg (fun hkx => hk hkx.symm)]
        omega
    · rw [if_neg hc] at h
      rcases List.mem_cons.mp h with rfl | h
      · rw [hcons, if_pos rfl]
        omega
      · have h1 := ih (fun j => if j = k x then cnt (k x) + 1 else cnt j) h
        by_cases hk : k r = k x
        · simp only [if_pos hk] at h1
          rw [← hk] at h1
          rw [hcons, if_pos hk.symm]
          omega
        · simp only [if_neg hk] at h1
          rw [hcons, if_neg (fun hkx => hk hkx.symm)]
          omega

theorem dedupLast_subset (l : List Record) (r : Record)
    (h : r ∈ dedupLast l) : r ∈ l := by
  induction l with
  | nil => simp [dedupLast] at h
  | cons x xs ih =>
    simp only [dedupLast] at h
    by_cases hx : xs.any (sameSidCid x)
    · rw [if_pos hx] at h
      exact List.mem_cons_of_mem _ (ih h)
    · rw [if_neg hx] at h
      rcases List.mem_cons.mp h with rfl | h
      · exact List.mem_cons_self _ _
      · exact List.mem_cons_of_mem _ (ih h)

theorem backfill_snd_subset (k : Record → Int) (n : Nat) (train test : List Record)
    (r : Record) (h : r ∈ (backfill k n train test).2) : r ∈ test := by
  by_cases hn : n = 0
  · rw [backfill, if_pos hn] at h
    exact h
  · simp only [backfill, if_neg hn] at h
    rcases List.mem_append.mp h with h | h
    · exact List.mem_of_mem_filter h
    · exact List.mem_of_mem_filter (headTail_snd_subset _ _ _ _ _ h)

theorem backfill_fst_subset (k : Record → Int) (n : Nat) (train test : List Record)
    (r : Record) (h : r ∈ (backfill k n train test).1) : r ∈ train ∨ r ∈ test := by
  by_cases hn : n = 0
  · rw [backfill, if_pos hn] at h
    exact Or.inl h
  · simp only [backfill, if_neg hn] at h
    rcases List.mem_append.mp h with h | h
    · exact Or.inl h
    · exact Or.inr (List.mem_of_mem_filter (headTail_fst_subset _ _ _ _ _ h))

theorem countKey_filter_cold (k : Record → Int) (x : Int) (train test : List Record)
    (hx : x ∉ train.map k) :
    countKey k x (test.filter (fun r => !(decide (k r ∈ train.map k)))) =
      countKey k x test := by
  induction test with
  | nil => rfl
  | cons r rs ih =>
    simp only [countKey] at ih
    simp only [List.filter_cons, countKey]
    by_cases hb : (!decide (k r ∈ train.map k)) = true
    · rw [if_pos hb]
      simp only [List.countP_cons, ih]
    · rw [if_neg hb]
      have hw : k r ∈ train.map k := by
        by_contra hc
        apply hb
        simp [hc]
      have hk : ¬((k r == x) = true) := by
        intro hkx
        rw [eq_of_beq hkx] at hw
        exact hx hw
      rw [ih, List.countP_cons, if_neg hk, Nat.add_zero]

theorem mem_of_mem_flatMap_filter {β : Type} (fs : List β) (p : β → Record → Bool)
    (d : List Record) (r : Record)
    (h : r ∈ fs.flatMap (fun f => d.filter (p f))) : r ∈ d := by
  rcases List.mem_flatMap.mp h with ⟨f, _, hr⟩
  exact List.mem_of_mem_filter hr

/-- C3: `backfill` preserves the total number of rows across the train
and test sides, for every train set, test set, key and bound. -/
theorem backfill_preserves_row_count (train test : List Record)
    (k : Record → Int) (firstn : Nat) :
    (backfill k firstn train test).1.length + (backfill k firstn train test).2.length =
      train.length + test.length := by
  by_cases hn : firstn = 0
  · rw [backfill, if_pos hn]
  · simp only [backfill, if_neg hn]
    have h1 := headTail_length k firstn
      (test.filter (fun r => !(decide (k r ∈ train.map k)))) (fun _ => 0)
    have h2 := length_filter_not_add (fun r => decide (k r ∈ train.map k)) test
    simp only [List.length_append]
    omega

/-- C7: for every `TrainTestFilter` and record list, `train` and `test`
partition the list: their concatenation is a permutation of the input
and no record value lies in both. -/
theorem filter_train_test_partition (f : TrainTestFilter) (data : List Record) :
    (f.train data ++ f.test data).Perm data ∧
      ∀ r, r ∈ f.train data → r ∉ f.test data := by
  constructor
  · exact List.filter_append_perm (fun r => f.mask r) data
  · intro r h1 h2
    have hm := List.of_mem_filter h1
    have hn := List.of_mem_filter h2
    rw [hm] at hn
    simp at hn

/-- C7 witness: the partition property instantiated at a concrete
filter and record list. -/
theorem filter_train_test_partition_witness :
    ((TrainTestFilter.train ⟨0, 5, 0, 14⟩ [⟨0, 0, 0, some 1, some 2, some "A", some 4⟩] ++
        TrainTestFilter.test ⟨0, 5, 0, 14⟩ [⟨0, 0, 0, some 1, some 2, some "A", some 4⟩]).Perm
      [⟨0, 0, 0, some 1, some 2, some "A", some 4⟩]) ∧
    ∀ r, r ∈ TrainTestFilter.train ⟨0, 5, 0, 14⟩
        [⟨0, 0, 0, some 1, some 2, some "A", some 4⟩] →
      r ∉ TrainTestFilter.test ⟨0, 5, 0, 14⟩
        [⟨0, 0, 0, some 1, some 2, some "A", some 4⟩] :=
  filter_train_test_partition ⟨0, 5, 0, 14⟩ [⟨0, 0, 0, some 1, some 2, some "A", some 4⟩]

/-- C10: a record with a missing cohort or missing term number is never
in `train(data)` and, when present in the data, always in `test(data)`:
NaN comparisons are false, so the mask is false. -/
theorem missing_cohort_goes_to_test (f : TrainTestFilter) (data : List Record)
    (r : Record) (h : r.cohort = none ∨ r.termnum = none) :
    r ∉ f.train data ∧ (r ∈ data → r ∈ f.test data) := by
  have hm : f.mask r = false := by
    rcases h with h | h <;> simp [TrainTestFilter.mask, h, optGE, optLE]
  constructor
  · intro hmem
    have hmask := List.of_mem_filter hmem
    rw [hm] at hmask
    exact Bool.false_ne_true hmask
  · intro hmem
    refine List.mem_filter.mpr ⟨hmem, ?_⟩
    rw [hm]
    rfl

/-- C10 witness: a record with missing cohort at a concrete filter and
data list. -/
theorem missing_cohort_goes_to_test_witness :
    ((⟨0, 0, 0, some 1, none, some "A", some 4⟩ : Record).cohort = none ∨
      (⟨0, 0, 0, some 1, none, some "A", some 4⟩ : Record).termnum = none) ∧
    ((⟨0, 0, 0, some 1, none, some "A", some 4⟩ : Record) ∉
        TrainTestFilter.train ⟨0, 5, 0, 14⟩ [⟨0, 0, 0, some 1, none, some "A", some 4⟩] ∧
      ((⟨0, 0, 0, some 1, none, some "A", some 4⟩ : Record) ∈
          ([⟨0, 0, 0, some 1, none, some "A", some 4⟩] : List Record) →
        (⟨0, 0, 0, some 1, none, some "A", some 4⟩ : Record) ∈
          TrainTestFilter.test ⟨0, 5, 0, 14⟩ [⟨0, 0, 0, some 1, none, some "A", some 4⟩])) :=
  ⟨Or.inl rfl, missing_cohort_goes_to_test ⟨0, 5, 0, 14⟩
    [⟨0, 0, 0, some 1, none, some "A", some 4⟩]
    ⟨0, 0, 0, some 1, none, some "A", some 4⟩ (Or.inl rfl)⟩

/-- C4 (code bug): `fill_grdpts` never keeps an existing quality-points
value.  The record below has `grdpts = 3.5` already present and grade
`A`, yet resolution returns the table value 4.0: the guard
`series['GRADE'] != np.nan` is true for every value, so the lookup
always wins. -/
theorem fill_grdpts_overwrites_existing_eval :
    fill_grdpts ⟨0, 0, 0, some 0, some 0, some "A", some (7/2)⟩ =
        PyResult.ok (some 4) ∧
      PyResult.ok (some (4 : Rat)) ≠ PyResult.ok (some ((7 : Rat)/2)) := by
  constructor
  · rfl
  · simp only [ne_eq, PyResult.ok.injEq, Option.some.injEq]
    norm_num

/-- C5 counterexample: a grade code absent from the `grade2pts` table
raises `KeyError` instead of resolving to missing quality points. -/
theorem unmapped_grade_keyerror_cex :
    fill_grdpts ⟨0, 0, 0, some 0, some 0, some "XX", some 2⟩ = PyResult.keyError ∧
      (PyResult.keyError : PyResult (Option Rat)) ≠ PyResult.ok none := by
  constructor
  · rfl
  · decide

/-- C1 (code bug): the libFM re-encoding offsets `cid` by `max(sid)`
rather than `max(sid)+1`.  With train row (sid 1, cid 1) and test row
(sid 0, cid 0), the written test column id is 1, not the 2 the offset
`max(sid)+1` would give, and 1 is also a written row id — the row and
column index blocks collide.  In `bin` time mode the train row's time
index 2 likewise collides with the train row's column id 2. -/
theorem libfm_offset_collision_eval :
    ((libfm_run "" [⟨1, 1, 0, some 0, some 0, some "A", some 4⟩]
        [⟨0, 0, 0, some 0, some 0, some "B", some 3⟩]).test.map Record.cid = [1]) ∧
    ((libfm_run "" [⟨1, 1, 0, some 0, some 0, some "A", some 4⟩]
        [⟨0, 0, 0, some 0, some 0, some "B", some 3⟩]).test.map Record.cid ≠ [2]) ∧
    ((1 : Int) ∈ (libfm_run "" [⟨1, 1, 0, some 0, some 0, some "A", some 4⟩]
        [⟨0, 0, 0, some 0, some 0, some "B", some 3⟩]).train.map Record.sid) ∧
    ((libfm_run "bin" [⟨1, 1, 0, some 0, some 0, some "A", some 4⟩]
        [⟨0, 0, 0, some 3, some 0, some "B", some 3⟩]).train.map Record.termnum =
      [some 2]) ∧
    ((2 : Int) ∈ (libfm_run "bin" [⟨1, 1, 0, some 0, some 0, some "A", some 4⟩]
        [⟨0, 0, 0, some 3, some 0, some "B", some 3⟩]).train.map Record.cid) := by
  refine ⟨rfl, ?_, ?_, rfl, ?_⟩
  · decide
  · decide
  · decide

/-- C9 counterexample: the filter parsed from `"0-5"` gets the finite
term range [0, 14], so a record with cohort 3 in [0, 5] but term number
15 is not in `train(data)`, although the claim promises membership
irrespective of the term number. -/
theorem filter_no_colon_term_bound_cex :
    parseFilterSpec "0-5" = some ⟨0, 5, 0, 14⟩ ∧
    (⟨0, 0, 0, some 15, some 3, some "A", some 4⟩ : Record) ∈
      ([⟨0, 0, 0, some 15, some 3, some "A", some 4⟩] : List Record) ∧
    ((0 : Int) ≤ 3 ∧ (3 : Int) ≤ 5) ∧
    (⟨0, 0, 0, some 15, some 3, some "A", some 4⟩ : Record) ∉
      TrainTestFilter.train ⟨0, 5, 0, 14⟩
        [⟨0, 0, 0, some 15, some 3, some "A", some 4⟩] := by
  refine ⟨by decide, by decide, by decide, by decide⟩

theorem rowLE_total (a b : TaggedRow) : rowLE a b = true ∨ rowLE b a = true := by
  simp only [rowLE, decide_eq_true_eq]
  exact le_total a.test_error b.test_error

theorem rowLE_trans (a b c : TaggedRow) (h1 : rowLE a b = true)
    (h2 : rowLE b c = true) : rowLE a c = true := by
  simp only [rowLE, decide_eq_true_eq] at h1 h2 ⊢
  exact le_trans h1 h2

/-- C8: the aggregator keeps, per method, the `topn` rows with smallest
test error and emits a merged list sorted ascending by test error.  On
the five-row example with N = 3 the kept rows are dims 5, 3, 2 with
test errors .2, .3, .4; and for every input the merged output is
pairwise sorted ascending by test error. -/
theorem compare_methods_topn_ranking :
    (compareRun [("M", [⟨1, 1/10, 1/2⟩, ⟨2, 1/10, 2/5⟩, ⟨3, 1/10, 3/10⟩,
        ⟨4, 1/10, 3/5⟩, ⟨5, 1/10, 1/5⟩])] 3 =
      [⟨"M", 5, 1/10, 1/5⟩, ⟨"M", 3, 1/10, 3/10⟩, ⟨"M", 2, 1/10, 2/5⟩]) ∧
    ∀ (inputs : List (String × List MethodRow)) (topn : Nat),
      (compareRun inputs topn).Pairwise (fun a b => a.test_error ≤ b.test_error) := by
  constructor
  · norm_num [compareRun, sortBy, insertBy, rowLE, tagRow, List.flatMap]
  · intro inputs topn
    have h := sortBy_pairwise rowLE rowLE_total rowLE_trans
      (inputs.flatMap (fun pr => (sortBy rowLE ((pr.2).map (tagRow pr.1))).take topn))
    exact List.Pairwise.imp (fun hab => by
      simpa only [rowLE, decide_eq_true_eq] using hab) h

/-- C2: after `backfill` with a positive bound `F`, every key value in
the returned test set also occurs in the returned train set (or its
original test-group had at most `F` rows and it is gone from test);
and every cold key (present in test, absent from train) whose test
group has at most `F` rows is removed from test entirely and appears in
train. -/
theorem backfill_cold_start_coverage (train test : List Record)
    (k : Record → Int) (F : Nat) (hF : 0 < F) :
    (∀ r ∈ (backfill k F train test).2,
        k r ∈ (backfill k F train test).1.map k ∨
          (countKey k (k r) test ≤ F ∧
            k r ∉ (backfill k F train test).2.map k)) ∧
    (∀ x : Int, x ∈ test.map k → x ∉ train.map k → countKey k x test ≤ F →
        x ∉ (backfill k F train test).2.map k ∧
          x ∈ (backfill k F train test).1.map k) := by
  have hF0 : F ≠ 0 := Nat.pos_iff_ne_zero.mp hF
  constructor
  · intro r hr
    left
    simp only [backfill, if_neg hF0] at hr ⊢
    rw [List.map_append]
    rcases List.mem_append.mp hr with h | h
    · have hw : k r ∈ train.map k := of_decide_eq_true (List.mem_filter.mp h).2
      exact List.mem_append.mpr (Or.inl hw)
    · rcases headTail_snd_cover k F _ _ r h with h1 | ⟨r', h1, h2⟩
      · omega
      · exact List.mem_append.mpr (Or.inr (List.mem_map.mpr ⟨r', h1, h2⟩))
  · intro x hxt hxtr hcnt
    constructor
    · intro hx
      rcases List.mem_map.mp hx with ⟨r, hr, hkr⟩
      simp only [backfill, if_neg hF0] at hr
      rcases List.mem_append.mp hr with h | h
      · have hw := of_decide_eq_true (List.mem_filter.mp h).2
        rw [hkr] at hw
        exact hxtr hw
      · have hcount := headTail_snd_count k F _ _ r h
        rw [hkr] at hcount
        rw [countKey_filter_cold k x train test hxtr] at hcount
        omega
    · rcases List.mem_map.mp hxt with ⟨r, hr, hkr⟩
      have hcold : r ∈ test.filter (fun r => !(decide (k r ∈ train.map k))) := by
        refine List.mem_filter.mpr ⟨hr, ?_⟩
        rw [hkr]
        simp [hxtr]
      obtain ⟨r', h1, h2⟩ := headTail_first k F _ (fun _ => 0) r hcold hF
      simp only [backfill, if_neg hF0]
      rw [List.map_append]
      refine List.mem_append.mpr (Or.inr (List.mem_map.mpr ⟨r', h1, ?_⟩))
      rw [h2, hkr]

/-- C2 witness: one cold test record with bound 1 is moved entirely to
train. -/
theorem backfill_cold_start_coverage_witness :
    0 < 1 ∧
    ((∀ r ∈ (backfill Record.sid 1 [] [⟨2, 0, 0, some 0, some 0, some "B", some 3⟩]).2,
        Record.sid r ∈ (backfill Record.sid 1 []
            [⟨2, 0, 0, some 0, some 0, some "B", some 3⟩]).1.map Record.sid ∨
          (countKey Record.sid (Record.sid r)
              [⟨2, 0, 0, some 0, some 0, some "B", some 3⟩] ≤ 1 ∧
            Record.sid r ∉ (backfill Record.sid 1 []
                [⟨2, 0, 0, some 0, some 0, some "B", some 3⟩]).2.map Record.sid)) ∧
      ∀ x : Int,
        x ∈ ([⟨2, 0, 0, some 0, some 0, some "B", some 3⟩] : List Record).map Record.sid →
        x ∉ ([] : List Record).map Record.sid →
        countKey Record.sid x [⟨2, 0, 0, some 0, some 0, some "B", some 3⟩] ≤ 1 →
        x ∉ (backfill Record.sid 1 []
            [⟨2, 0, 0, some 0, some 0, some "B", some 3⟩]).2.map Record.sid ∧
          x ∈ (backfill Record.sid 1 []
              [⟨2, 0, 0, some 0, some 0, some "B", some 3⟩]).1.map Record.sid) :=
  ⟨by decide, backfill_cold_start_coverage []
    [⟨2, 0, 0, some 0, some 0, some "B", some 3⟩] Record.sid 1 (by decide)⟩

/-- C6: no record with grade W, S or NC is in the test side of
`split_data`, for every configuration: the grades are stripped before
backfill, and backfill only ever removes rows from the test side. -/
theorem split_data_test_excludes_wsnc (cfg : SplitConfig) (data : List Record)
    (r : Record) (hr : r ∈ (split_data cfg data).2) :
    r.GRADE ≠ some "W" ∧ r.GRADE ≠ some "S" ∧ r.GRADE ≠ some "NC" := by
  simp only [split_data] at hr
  have h1 := backfill_snd_subset _ _ _ _ _ hr
  have h2 := backfill_snd_subset _ _ _ _ _ h1
  have h3 : (!(gradeIsIn r toremove)) = true := (List.mem_filter.mp h2).2
  have h4 : gradeIsIn r toremove = false := by
    cases hg : gradeIsIn r toremove
    · rfl
    · rw [hg] at h3
      exact absurd h3 (by decide)
  refine ⟨?_, ?_, ?_⟩ <;> intro hG <;> simp [gradeIsIn, hG, toremove] at h4

/-- C6 witness: a concrete split whose test side is the single
grade-`A` record. -/
theorem split_data_test_excludes_wsnc_witness :
    ((⟨0, 0, 0, some 1, none, some "A", some 4⟩ : Record) ∈
      (split_data ⟨[⟨0, 5, 0, 14⟩], true, 0, 0⟩
        [⟨0, 0, 0, some 1, none, some "A", some 4⟩,
         ⟨1, 1, 0, some 1, some 3, some "W", some 1⟩,
         ⟨2, 2, 0, some 1, some 3, some "B", some 3⟩]).2) ∧
    ((⟨0, 0, 0, some 1, none, some "A", some 4⟩ : Record).GRADE ≠ some "W" ∧
      (⟨0, 0, 0, some 1, none, some "A", some 4⟩ : Record).GRADE ≠ some "S" ∧
      (⟨0, 0, 0, some 1, none, some "A", some 4⟩ : Record).GRADE ≠ some "NC") :=
  ⟨by decide, split_data_test_excludes_wsnc ⟨[⟨0, 5, 0, 14⟩], true, 0, 0⟩
    [⟨0, 0, 0, some 1, none, some "A", some 4⟩,
     ⟨1, 1, 0, some 1, some 3, some "W", some 1⟩,
     ⟨2, 2, 0, some 1, some 3, some "B", some 3⟩]
    ⟨0, 0, 0, some 1, none, some "A", some 4⟩ (by decide)⟩

theorem mem_of_filters_train (fs : List TrainTestFilter) (d : List Record)
    (r : Record) (h : r ∈ fs.flatMap (fun f => f.train d)) : r ∈ d := by
  rcases List.mem_flatMap.mp h with ⟨f, _, hr⟩
  exact List.mem_of_mem_filter hr

theorem mem_of_filters_test (fs : List TrainTestFilter) (d : List Record)
    (r : Record) (h : r ∈ fs.flatMap (fun f => f.test d)) : r ∈ d := by
  rcases List.mem_flatMap.mp h with ⟨f, _, hr⟩
  exact List.mem_of_mem_filter hr

theorem split_data_source_grdpts (cfg : SplitConfig) (data : List Record)
    (r : Record)
    (h : r ∈ (split_data cfg data).1 ∨ r ∈ (split_data cfg data).2) :
    r.grdpts ≠ none := by
  have hmem : r ∈ sortBy splitSortLE (read_data data) := by
    rcases h with h | h
    · simp only [split_data] at h
      rcases backfill_fst_subset _ _ _ _ _ h with h | h
      · rcases backfill_fst_subset _ _ _ _ _ h with h | h
        · have hX : r ∈ dedupFirst (cfg.filters.flatMap
              (fun f => f.train (sortBy splitSortLE (read_data data)))) := by
            by_cases hd : cfg.discard_nongrade
            · rw [if_pos hd] at h
              exact List.mem_of_mem_filter h
            · rw [if_neg hd] at h
              exact h
          exact mem_of_filters_train _ _ _ (dedupFirst_subset _ _ hX)
        · exact mem_of_filters_test _ _ _
            (dedupFirst_subset _ _ (List.mem_of_mem_filter h))
      · have hE := backfill_snd_subset _ _ _ _ _ h
        exact mem_of_filters_test _ _ _
          (dedupFirst_subset _ _ (List.mem_of_mem_filter hE))
    · simp only [split_data] at h
      have h1 := backfill_snd_subset _ _ _ _ _ h
      have h2 := backfill_snd_subset _ _ _ _ _ h1
      exact mem_of_filters_test _ _ _
        (dedupFirst_subset _ _ (List.mem_of_mem_filter h2))
  have hrd : r ∈ read_data data := (sortBy_mem _ _ _).mp hmem
  have hsome : r.grdpts.isSome = true := (List.mem_filter.mp hrd).2
  intro hn
  rw [hn] at hsome
  exact Bool.false_ne_true hsome

/-- C5 (amended): every grade code that the `grade2pts` table maps to
NaN (NR, AU, REG, IX, IP, the literal string nan) and the missing
grade resolve to missing quality points — not zero and without error —
and every record that reaches either side of a split has non-missing
quality points; but a grade code entirely absent from the table raises
`KeyError` instead of resolving to missing (see the counterexample). -/
theorem grade_missing_resolution_amended (r : Record)
    (h : r.GRADE ∈ ([none, some "NR", some "AU", some "REG", some "IX",
        some "IP", some "nan"] : List (Option String))) :
    (fill_grdpts r = PyResult.ok none ∧ fill_grdpts r ≠ PyResult.ok (some 0)) ∧
    ∀ (cfg : SplitConfig) (data : List Record) (r2 : Record),
      (r2 ∈ (split_data cfg data).1 ∨ r2 ∈ (split_data cfg data).2) →
      r2.grdpts ≠ none := by
  constructor
  · have hfill : fill_grdpts r = grade2ptsGet r.GRADE := rfl
    simp only [List.mem_cons, List.not_mem_nil, or_false] at h
    rcases h with h | h | h | h | h | h | h <;> rw [hfill, h] <;>
      exact ⟨rfl, by decide⟩
  · intro cfg data r2 h2
    exact split_data_source_grdpts cfg data r2 h2

/-- C5 witness: the NR grade resolves to missing, instantiated. -/
theorem grade_missing_resolution_amended_witness :
    ((⟨0, 0, 0, some 0, some 0, some "NR", none⟩ : Record).GRADE ∈
      ([none, some "NR", some "AU", some "REG", some "IX",
        some "IP", some "nan"] : List (Option String))) ∧
    ((fill_grdpts ⟨0, 0, 0, some 0, some 0, some "NR", none⟩ = PyResult.ok none ∧
        fill_grdpts ⟨0, 0, 0, some 0, some 0, some "NR", none⟩ ≠
          PyResult.ok (some 0)) ∧
      ∀ (cfg : SplitConfig) (data : List Record) (r2 : Record),
        (r2 ∈ (split_data cfg data).1 ∨ r2 ∈ (split_data cfg data).2) →
        r2.grdpts ≠ none) :=
  ⟨by decide, grade_missing_resolution_amended
    ⟨0, 0, 0, some 0, some 0, some "NR", none⟩ (by decide)⟩

/-- C9 (amended): a filter spec of the form `A-B` (no colon) parses to
cohort range [A, B] with term range [0, term_max] where term_max = 14;
`train(data)` then contains every record with cohort in [A, B] whose
term number lies within [0, term_max] — but not irrespective of the
term number, since term_max is a finite bound (see the
counterexample with term number 15). -/
theorem filter_no_colon_parse_amended (s : String) (f : TrainTestFilter)
    (data : List Record) (r : Record)
    (hs : pyContainsChar s ':' = false)
    (hp : parseFilterSpec s = some f)
    (hr : r ∈ data)
    (c : Int) (hc : r.cohort = some c)
    (h1 : f.cohort_start ≤ c) (h2 : c ≤ f.cohort_end)
    (t : Int) (ht : r.termnum = some t) (h3 : 0 ≤ t) (h4 : t ≤ term_max) :
    f.term_start = 0 ∧ f.term_end = term_max ∧ r ∈ f.train data := by
  rw [parseFilterSpec, hs] at hp
  simp only [Bool.false_eq_true, if_false] at hp
  split at hp
  case _ a b heq =>
    injection hp with hp
    subst hp
    have h1' : a ≤ c := h1
    have h2' : c ≤ b := h2
    have h4' : t ≤ 14 := h4
    refine ⟨rfl, rfl, List.mem_filter.mpr ⟨hr, ?_⟩⟩
    simp only [TrainTestFilter.mask, optGE, optLE, hc, ht, term_max,
      Bool.and_eq_true, decide_eq_true_eq]
    exact ⟨⟨⟨h1', h2'⟩, h3⟩, h4'⟩
  case _ => exact absurd hp (by simp)

/-- C9 witness: the spec `0-5` applied to a record with cohort 2 and
term number 3. -/
theorem filter_no_colon_parse_amended_witness :
    (pyContainsChar "0-5" ':' = false ∧
      parseFilterSpec "0-5" = some ⟨0, 5, 0, 14⟩ ∧
      (⟨7, 0, 0, some 3, some 2, some "A", some 4⟩ : Record) ∈
        ([⟨7, 0, 0, some 3, some 2, some "A", some 4⟩] : List Record) ∧
      (⟨7, 0, 0, some 3, some 2, some "A", some 4⟩ : Record).cohort = some 2 ∧
      ((0 : Int) ≤ 2 ∧ (2 : Int) ≤ 5) ∧
      (⟨7, 0, 0, some 3, some 2, some "A", some 4⟩ : Record).termnum = some 3 ∧
      ((0 : Int) ≤ 3 ∧ (3 : Int) ≤ term_max)) ∧
    ((⟨0, 5, 0, 14⟩ : TrainTestFilter).term_start = 0 ∧
      (⟨0, 5, 0, 14⟩ : TrainTestFilter).term_end = term_max ∧
      (⟨7, 0, 0, some 3, some 2, some "A", some 4⟩ : Record) ∈
        TrainTestFilter.train ⟨0, 5, 0, 14⟩
          [⟨7, 0, 0, some 3, some 2, some "A", some 4⟩]) :=
  ⟨by decide, filter_no_colon_parse_amended "0-5" ⟨0, 5, 0, 14⟩
    [⟨7, 0, 0, some 3, some 2, some "A", some 4⟩]
    ⟨7, 0, 0, some 3, some 2, some "A", some 4⟩
    (by decide) (by decide) (by decide) 2 (by decide) (by decide) (by decide)
    3 (by decide) (by decide) (by decide)⟩
